import Mathlib

/-!
Verification of the VDOT interpolation and phase-planning core of the
AI Marathon Coach repository.

The Python sources are embedded shallowly:

* Python `float` arithmetic is modelled by exact arithmetic over `ℚ`
  (and over `ℝ` where `math.sqrt` appears, in `src/config.py`).
* Python strings are modelled as `List Char`; `str.split(":")`,
  `str.strip()`, `str.replace`, f-string formatting and `int(...)`
  parsing are modelled character by character.
* Python `round(x)` / `round(x, n)` (round-half-to-even, "banker's
  rounding") is modelled by `rheInt` / `pyRound2` / `pyRound1`;
  Python `int(x)` truncation is `pyIntOf`; Python `//` and `%` on
  numbers are floor division and floor modulus.
* `pandas.DataFrame` reference tables are modelled as lists:
  the VDOT table of `calculate_vdot_from_time` as the list of
  `(vdot, time-in-seconds)` pairs that lines 107-113 of
  `src/vdot/calculator.py` extract from the frame (the frame
  iteration itself is I/O glue), and the pace table as a list of
  `PaceRow` records holding the raw pace strings.
* `datetime` values are modelled as whole days (`ℤ`) counted from an
  arbitrary Monday, so that `weekday()` is `emod 7` and
  `timedelta(weeks = w)` is `7 * w`; `datetime.now()` becomes an
  explicit `today` parameter representing the ambient clock value.
-/

/-! ## Python numeric primitives -/

/-- Python `round(x)` to an integer: round half to even (banker's rounding). -/
def rheInt {α : Type} [LinearOrderedField α] [FloorRing α] (x : α) : ℤ :=
  if x - ⌊x⌋ < 1/2 then ⌊x⌋
  else if 1/2 < x - ⌊x⌋ then ⌊x⌋ + 1
  else if ⌊x⌋ % 2 = 0 then ⌊x⌋ else ⌊x⌋ + 1

/-- Python `round(x, 2)`: round half to even at two decimal places. -/
def pyRound2 {α : Type} [LinearOrderedField α] [FloorRing α] (x : α) : α :=
  (rheInt (100 * x) : α) / 100

/-- Python `round(x, 1)`: round half to even at one decimal place. -/
def pyRound1 {α : Type} [LinearOrderedField α] [FloorRing α] (x : α) : α :=
  (rheInt (10 * x) : α) / 10

/-- Python `int(x)`: truncation toward zero. -/
def pyIntOf (x : ℚ) : ℤ := if 0 ≤ x then ⌊x⌋ else ⌈x⌉

/-- Python `x // y` on numbers (floor division, result as a number). -/
def pyFloorDiv (x y : ℚ) : ℚ := ((⌊x / y⌋ : ℤ) : ℚ)

/-- Python `x % y` on numbers: `x - y * (x // y)` (sign follows `y`). -/
def pyMod (x y : ℚ) : ℚ := x - y * ((⌊x / y⌋ : ℤ) : ℚ)

/-! ## Character-level string primitives (`src/vdot/calculator.py` lines 9-61) -/

/-- The ASCII decimal digits, as a Bool predicate on characters. -/
def isDigitChar (c : Char) : Bool := decide (48 ≤ c.toNat ∧ c.toNat ≤ 57)

/-- Whitespace removed by Python `str.strip()` (the forms that matter here). -/
def isSpaceChar (c : Char) : Bool := c == ' ' || c == '\t' || c == '\n' || c == '\r'

/-- Python `str.strip()`: drop leading and trailing whitespace. -/
def pyStrip (s : List Char) : List Char :=
  ((s.dropWhile isSpaceChar).reverse.dropWhile isSpaceChar).reverse

/-- Line 24 of `src/vdot/calculator.py`: `time_str.replace("：", ":")`,
replacing the full-width colon by the ASCII one. -/
def normColon (s : List Char) : List Char :=
  s.map (fun c => if c = '：' then ':' else c)

/-- Python `str.split(":")`. -/
def splitOnColon : List Char → List (List Char)
  | [] => [[]]
  | c :: cs =>
    if c = ':' then [] :: splitOnColon cs
    else
      match splitOnColon cs with
      | [] => [[c]]
      | p :: ps => (c :: p) :: ps

/-- Numeric value of a decimal digit character. -/
def charDigit (c : Char) : ℕ := c.toNat - 48

/-- Value of a nonempty all-digit string (the digits-only core of Python
`int(...)`); `none` on the empty string or any non-digit. -/
def parseDigits : List Char → Option ℕ
  | [] => none
  | c :: cs =>
    if (c :: cs).all isDigitChar then
      some ((c :: cs).foldl (fun a c => 10 * a + charDigit c) 0)
    else none

/-- Python `int(str)`: optional surrounding whitespace, an optional sign,
then decimal digits; anything else raises `ValueError`, modelled as `none`.
(Underscore digit grouping, an obscure Python extra, is not modelled; no
string in this code base uses it.) -/
def pyParseInt (s : List Char) : Option ℤ :=
  match pyStrip s with
  | [] => none
  | c :: rest =>
    if c = '-' then (parseDigits rest).map (fun (n : ℕ) => -(n : ℤ))
    else if c = '+' then (parseDigits rest).map (fun (n : ℕ) => (n : ℤ))
    else (parseDigits (c :: rest)).map (fun (n : ℕ) => (n : ℤ))

/-- The list comprehension `[int(p) for p in parts]` of line 25 of
`src/vdot/calculator.py`: all parts must parse, otherwise the enclosing
`try` turns the `ValueError` into `None`. -/
def parseParts : List (List Char) → Option (List ℤ)
  | [] => some []
  | p :: ps =>
    match pyParseInt p, parseParts ps with
    | some v, some vs => some (v :: vs)
    | _, _ => none

/-- `time_to_seconds` (`src/vdot/calculator.py` lines 9-38): parse
`H:MM:SS`, `M:SS` or a bare integer string, full-width colons accepted,
returning `none` for empty or unparseable input. -/
def time_to_seconds (time_str : List Char) : Option ℤ :=
  if time_str = [] then none
  else
    match parseParts (splitOnColon (normColon (pyStrip time_str))) with
    | none => none
    | some [h, m, s] => some (h * 3600 + m * 60 + s)
    | some [m, s] => some (m * 60 + s)
    | some [x] => some x
    | some _ => none

/-- Decimal rendering of a natural number, in a fuel-driven form that the
kernel can evaluate (fuel `n` is always enough for `n`). -/
def printNatAux : ℕ → ℕ → List Char
  | 0, _ => []
  | fuel + 1, n =>
    if n = 0 then [] else printNatAux fuel (n / 10) ++ [Nat.digitChar (n % 10)]

/-- Decimal rendering of a natural number (Python `f"{n}"` for `n ≥ 0`). -/
def printNat (n : ℕ) : List Char :=
  if n = 0 then ['0'] else printNatAux n n

/-- Decimal rendering of an integer (Python `f"{n}"`). -/
def printInt (n : ℤ) : List Char :=
  if n < 0 then '-' :: printNat (-n).toNat else printNat n.toNat

/-- Python `f"{n:02d}"`: zero-pad the rendering to width two. -/
def pad2 (n : ℤ) : List Char :=
  if (printInt n).length < 2 then '0' :: printInt n else printInt n

/-- `seconds_to_time` (`src/vdot/calculator.py` lines 41-61): format a
number of seconds as `H:MM:SS` (when `include_hours` or the hour field is
positive) or `M:SS`; a `None` input renders as `"N/A"`.  The seconds input
is a `ℚ` because Python callers may pass either `int` or `float`; the code
applies `int(...)` truncation to each field, not rounding. -/
def seconds_to_time (seconds : Option ℚ) (include_hours : Bool := false) : List Char :=
  match seconds with
  | none => "N/A".toList
  | some s =>
    let hours : ℤ := pyIntOf (pyFloorDiv s 3600)
    let minutes : ℤ := pyIntOf (pyFloorDiv (pyMod s 3600) 60)
    let secs : ℤ := pyIntOf (pyMod s 60)
    if include_hours || decide (0 < hours) then
      printInt hours ++ ':' :: (pad2 minutes ++ ':' :: pad2 secs)
    else
      printInt minutes ++ ':' :: pad2 secs

/-! ## VDOT calculator (`src/vdot/calculator.py` lines 64-171)

The distance-synonym map and the DataFrame column handling (lines 86-113)
are loader glue; the embedded function receives the list of
`(vdot, time-in-seconds)` pairs those lines extract. -/

/-- Line 116: `vdot_times.sort(key=lambda x: x[1], reverse=True)` — a
stable sort, descending by time.  Insertion sort with this insertion rule
is stable, and any two stable sorts of the same list agree. -/
def insertByTime (a : ℤ × ℤ) : List (ℤ × ℤ) → List (ℤ × ℤ)
  | [] => [a]
  | b :: l => if b.2 ≤ a.2 then a :: b :: l else b :: insertByTime a l

/-- Stable sort of the `(vdot, time)` pairs, descending by time. -/
def sortByTimeDesc : List (ℤ × ℤ) → List (ℤ × ℤ)
  | [] => []
  | a :: l => insertByTime a (sortByTimeDesc l)

/-- Lines 119-127: walk the sorted rows; return the first row whose time
is `≤` the query together with its predecessor (`vdot_times[i-1]` when
`i > 0`), threaded here as `prev`. -/
def findLower : List (ℤ × ℤ) → Option (ℤ × ℤ) → ℤ → Option ((ℤ × ℤ) × Option (ℤ × ℤ))
  | [], _, _ => none
  | p :: rest, prev, d => if p.2 ≤ d then some (p, prev) else findLower rest (some p) d

/-- The linear-interpolation formula of lines 146-147:
`vdot_low + (vdot_high - vdot_low) * (time_low - t) / (time_low - time_high)`
where `a` carries `(vdot_low, time_low)` and `b` carries
`(vdot_high, time_high)`. -/
def interpVal (a b : ℤ × ℤ) (d : ℤ) : ℚ :=
  (a.1 : ℚ) + ((b.1 : ℚ) - (a.1 : ℚ)) * (((a.2 : ℚ) - (d : ℚ)) / ((a.2 : ℚ) - (b.2 : ℚ)))

/-- Lines 133-151: with no `upper` row, clamp to the `lower` row's VDOT
(line 134, no rounding); otherwise order the two rows by VDOT (lines
139-143), interpolate and round to two decimals, guarding equal times
(lines 145-151). -/
def finishInterp (lower : ℤ × ℤ) (upper : Option (ℤ × ℤ)) (time_seconds : ℤ) : ℚ :=
  match upper with
  | none => (lower.1 : ℚ)
  | some u =>
    let p := if u.1 > lower.1 then (lower, u) else (u, lower)
    if p.1.2 ≠ p.2.2 then pyRound2 (interpVal p.1 p.2 time_seconds)
    else pyRound2 ((p.1.1 : ℚ))

/-- Lines 118-151 of `calculate_vdot_from_time` after the sort: scan for
the bracketing rows; if the scan finds nothing (query faster than every
row) fall back to the last row and, when the table has more than one row,
the second-to-last (lines 129-131); an empty table would raise
`IndexError` at `vdot_times[-1]`, modelled as `none`. -/
def calcCore (vdot_times : List (ℤ × ℤ)) (time_seconds : ℤ) : Option ℚ :=
  match findLower vdot_times none time_seconds with
  | some lu => some (finishInterp lu.1 lu.2 time_seconds)
  | none =>
    match vdot_times.getLast? with
    | none => none
    | some lastRow =>
      some (finishInterp lastRow
        (if 1 < vdot_times.length then vdot_times.dropLast.getLast? else none) time_seconds)

/-- `calculate_vdot_from_time` (`src/vdot/calculator.py` lines 64-171),
restricted to its numeric result (`result["vdot"]`): sort the extracted
`(vdot, time)` pairs descending by time and interpolate/clamp. -/
def calculate_vdot_from_time (pairs : List (ℤ × ℤ)) (time_seconds : ℤ) : Option ℚ :=
  calcCore (sortByTimeDesc pairs) time_seconds

/-- Well-formed reference table, as sorted by line 116: times strictly
decreasing and VDOT values strictly increasing along the list (the spec's
data-model invariant: a higher score means a faster time, indices unique). -/
def WFTable (l : List (ℤ × ℤ)) : Prop :=
  l.Pairwise (fun a b => b.2 < a.2 ∧ a.1 < b.1)

/-! ## Training paces (`src/vdot/paces.py`) -/

/-- One row of the pace reference table: the key of the `VDot` column and
the six raw pace strings.  The column-name normalisation of lines 31-39 of
`src/vdot/paces.py` is loader glue. -/
structure PaceRow where
  vdot : ℤ
  e_min : List Char
  e_max : List Char
  m : List Char
  t : List Char
  i : List Char
  r : List Char
deriving DecidableEq

/-- `df_pace[df_pace[vdot_col] == v]` followed by `.iloc[0]`: the first
row keyed by `v`, if any. -/
def lookupRow (df : List PaceRow) (v : ℤ) : Option PaceRow :=
  df.find? (fun row => row.vdot == v)

/-- Lines 62-76 of `src/vdot/paces.py` for one pace column: parse both
pace strings; skip the column (`none`) when either fails; otherwise
`round(pace_low + (pace_high - pace_low) * frac)`. -/
def blendPace (low high : List Char) (frac : ℚ) : Option ℤ :=
  match time_to_seconds low, time_to_seconds high with
  | some pl, some ph => some (rheInt ((pl : ℚ) + ((ph : ℚ) - (pl : ℚ)) * frac))
  | _, _ => none

/-- The error message of line 49 of `src/vdot/paces.py`. -/
def pacesErrMsg (vdot_low : ℤ) : List Char :=
  "エラー: VDOT ".toList ++ printInt vdot_low ++ " がファイルに存在しません".toList

/-- Result of `calculate_training_paces`, restricted to the seconds values
of the six pace columns, the success flag, and the error message.  The
derived display strings (each pace's `display`, the combined `E` range of
lines 89-94) and the success-path trace text of lines 83-104 are
presentation glue and are not modelled (`calculation_log` is kept only to
carry the error-branch message of line 49). -/
structure PacesResult where
  e_min : Option ℤ
  e_max : Option ℤ
  m : Option ℤ
  t : Option ℤ
  i : Option ℤ
  r : Option ℤ
  calculation_log : List Char
  success : Bool

/-- `calculate_training_paces` (`src/vdot/paces.py` lines 11-107):
`vdot_low = int(vdot)`, `vdot_high = vdot_low + 1`,
`decimal_frac = vdot - vdot_low`; a missing `vdot_low` row is the error
result of lines 48-50; a missing `vdot_high` row falls back to the low row
with fraction `0` (lines 52-54); then each pace column is blended. -/
def calculate_training_paces (df : List PaceRow) (vdot : ℚ) : PacesResult :=
  let vdot_low : ℤ := pyIntOf vdot
  match lookupRow df vdot_low with
  | none =>
    { e_min := none, e_max := none, m := none, t := none, i := none, r := none
      calculation_log := pacesErrMsg vdot_low, success := false }
  | some row_low =>
    let rowFrac : PaceRow × ℚ :=
      match lookupRow df (vdot_low + 1) with
      | none => (row_low, 0)
      | some rh => (rh, vdot - (vdot_low : ℚ))
    { e_min := blendPace row_low.e_min rowFrac.1.e_min rowFrac.2
      e_max := blendPace row_low.e_max rowFrac.1.e_max rowFrac.2
      m := blendPace row_low.m rowFrac.1.m rowFrac.2
      t := blendPace row_low.t rowFrac.1.t rowFrac.2
      i := blendPace row_low.i rowFrac.1.i rowFrac.2
      r := blendPace row_low.r rowFrac.1.r rowFrac.2
      calculation_log := [], success := true }

/-- `calculate_phase_vdots` (`src/vdot/paces.py` lines 110-138): phase 1
is `round(current, 2)`; later phases are `round(current + step * i, 2)`
with `step = (target - current) / (num_phases - 1)` when more than one
phase. -/
def calculate_phase_vdots (current_vdot target_vdot : ℚ) (num_phases : ℕ) : List ℚ :=
  let vdot_diff := target_vdot - current_vdot
  let step := if 1 < num_phases then vdot_diff / ((num_phases : ℚ) - 1) else vdot_diff
  (List.range num_phases).map fun (idx : ℕ) =>
    if idx = 0 then pyRound2 current_vdot
    else pyRound2 (current_vdot + step * (idx : ℚ))

/-! ## Tolerance policy (`src/config.py`) -/

/-- `BASE_TRAINING_WEEKS` (`src/config.py` line 61). -/
def BASE_TRAINING_WEEKS : ℝ := 12

/-- `VDOT_DIFF_SCALE_CAP` (`src/config.py` line 72). -/
noncomputable def VDOT_DIFF_SCALE_CAP : ℝ := 5/2

/-- Lines 90-94 of `src/config.py`: the first matching
`(lower, upper): diff` entry of `VDOT_DIFF_BY_LEVEL` in its insertion
order, with default `2.0`. -/
noncomputable def base_diff_for (current_vdot : ℝ) : ℝ :=
  if 0 ≤ current_vdot ∧ current_vdot < 40 then 4
  else if 40 ≤ current_vdot ∧ current_vdot < 50 then 3
  else if 50 ≤ current_vdot ∧ current_vdot < 55 then 5/2
  else if 55 ≤ current_vdot ∧ current_vdot < 60 then 2
  else if 60 ≤ current_vdot ∧ current_vdot < 100 then 3/2
  else 2

/-- `get_max_vdot_diff` (`src/config.py` lines 74-99):
`round(base_diff * min(sqrt(training_weeks / 12), 2.5), 1)`. -/
noncomputable def get_max_vdot_diff (current_vdot : ℝ) (training_weeks : ℝ) : ℝ :=
  pyRound1 (base_diff_for current_vdot *
    min (Real.sqrt (training_weeks / BASE_TRAINING_WEEKS)) VDOT_DIFF_SCALE_CAP)

/-! ## Training schedule (`src/vdot/training.py`) -/

/-- `MIN_TRAINING_WEEKS` (`src/config.py` line 53). -/
def MIN_TRAINING_WEEKS : ℤ := 12

/-- `get_training_start_date` (`src/vdot/training.py` lines 10-47), over
whole days counted from a Monday (so `weekday()` is `emod 7` and
`timedelta(weeks=w)` is `7*w`).  `today` models the ambient clock read by
`datetime.now()` at line 23; it is not a parameter of the Python function.
Lines 26-27 compute the whole weeks remaining; lines 30-35 pick the raw
start; lines 37-41 move it forward to the next Monday (a no-op when it is
already a Monday — the `days_until_monday = 7` reassignment of lines 39-40
is unreachable since `(7 - w) % 7 = 0` forces `w = 0`); the backward
adjustment of lines 44-45 is likewise dead. -/
def get_training_start_date (today race_date : ℤ) (min_weeks : ℤ := MIN_TRAINING_WEEKS) : ℤ :=
  let days_until_race := race_date - today
  let weeks_until_race := days_until_race / 7
  let start0 := if weeks_until_race < min_weeks then race_date - 7 * min_weeks else today
  let days_until_monday0 := (7 - start0 % 7) % 7
  let days_until_monday :=
    if days_until_monday0 = 0 ∧ start0 % 7 ≠ 0 then 7 else days_until_monday0
  let start1 := start0 + days_until_monday
  if start1 % 7 ≠ 0 then start1 - start1 % 7 else start1

/-- Modelled from the spec: the repository computes only the training
start date; the window duration in weeks appears nowhere under `src/`.
Spec §4.7: duration is `min_weeks` when the remaining whole weeks fall
short of it, else the remaining whole weeks. -/
def training_window_duration (today race_date min_weeks : ℤ) : ℤ :=
  if (race_date - today) / 7 < min_weeks then min_weeks
  else (race_date - today) / 7

/-! ## Rounding lemmas -/

theorem rheInt_intCast {α : Type} [LinearOrderedField α] [FloorRing α] (n : ℤ) :
    rheInt (n : α) = n := by
  unfold rheInt
  rw [Int.floor_intCast, sub_self]
  norm_num

theorem rheInt_ge_floor {α : Type} [LinearOrderedField α] [FloorRing α] (x : α) :
    ⌊x⌋ ≤ rheInt x := by
  unfold rheInt
  split_ifs <;> omega

theorem rheInt_le_floor_add_one {α : Type} [LinearOrderedField α] [FloorRing α] (x : α) :
    rheInt x ≤ ⌊x⌋ + 1 := by
  unfold rheInt
  split_ifs <;> omega

theorem rheInt_mono {α : Type} [LinearOrderedField α] [FloorRing α]
    {x y : α} (h : x ≤ y) : rheInt x ≤ rheInt y := by
  rcases lt_or_eq_of_le (Int.floor_le_floor h) with hf | hf
  · calc rheInt x ≤ ⌊x⌋ + 1 := rheInt_le_floor_add_one x
    _ ≤ ⌊y⌋ := by omega
    _ ≤ rheInt y := rheInt_ge_floor y
  · unfold rheInt
    rw [← hf]
    split_ifs <;> first | omega | linarith

theorem rheInt_le_half {α : Type} [LinearOrderedField α] [FloorRing α] (x : α) :
    (rheInt x : α) ≤ x + 1/2 := by
  have hfl : (⌊x⌋ : α) ≤ x := Int.floor_le x
  unfold rheInt
  split_ifs with h1 h2 <;> push_cast <;> linarith

theorem pyRound2_intCast {α : Type} [LinearOrderedField α] [FloorRing α] (n : ℤ) :
    pyRound2 (n : α) = n := by
  unfold pyRound2
  have : (100 : α) * n = ((100 * n : ℤ) : α) := by push_cast; ring
  rw [this, rheInt_intCast]
  push_cast
  ring

theorem pyRound2_mono {α : Type} [LinearOrderedField α] [FloorRing α]
    {x y : α} (h : x ≤ y) : pyRound2 x ≤ pyRound2 y := by
  unfold pyRound2
  have h1 : rheInt (100 * x) ≤ rheInt (100 * y) := rheInt_mono (by linarith)
  have h2 : ((rheInt (100 * x) : ℤ) : α) ≤ ((rheInt (100 * y) : ℤ) : α) := by exact_mod_cast h1
  linarith

theorem pyRound1_mono {α : Type} [LinearOrderedField α] [FloorRing α]
    {x y : α} (h : x ≤ y) : pyRound1 x ≤ pyRound1 y := by
  unfold pyRound1
  have h1 : rheInt (10 * x) ≤ rheInt (10 * y) := rheInt_mono (by linarith)
  have h2 : ((rheInt (10 * x) : ℤ) : α) ≤ ((rheInt (10 * y) : ℤ) : α) := by exact_mod_cast h1
  linarith

theorem pyRound1_le {α : Type} [LinearOrderedField α] [FloorRing α] (x : α) :
    pyRound1 x ≤ x + 1/20 := by
  unfold pyRound1
  have := rheInt_le_half (10 * x)
  linarith

theorem pyIntOf_intCast (n : ℤ) : pyIntOf (n : ℚ) = n := by
  unfold pyIntOf
  split_ifs <;> simp

theorem pyIntOf_eq_floor {x : ℚ} (h : 0 ≤ x) : pyIntOf x = ⌊x⌋ := by
  unfold pyIntOf
  rw [if_pos h]

/-! ## Phase planner (claim C2) -/

/-- Claim C2 counterexample: `calculate_phase_vdots` rounds every element
to two decimals, so with current VDOT `0.001` and target `1` over two
phases the first element is `0`, not the current value `0.001` — the
claimed exact equality `phase_targets(c, t, n)[0] == c` fails. -/
theorem c2_counterexample :
    calculate_phase_vdots (1/1000) 1 2 = [0, 1] ∧ ((0 : ℚ) ≠ 1/1000) := by
  constructor
  · show calculate_phase_vdots (1/1000) 1 2 = [0, 1]
    unfold calculate_phase_vdots
    have h2 : List.range 2 = [0, 1] := rfl
    rw [h2]
    simp only [List.map_cons, List.map_nil]
    norm_num [pyRound2, rheInt]
  · norm_num

/-- Claim C2, amended: every element of `calculate_phase_vdots` is
rounded to two decimal places, so the endpoint invariants hold up to that
rounding: for `n ≥ 1` the first element is `round(c, 2)`; for `n ≥ 2` the
last element is `round(t, 2)` exactly (the step sum telescopes with no
drift in exact arithmetic); for `n = 1` the single element is
`round(c, 2)` (the target is ignored). -/
theorem c2_amended :
    (∀ (c t : ℚ) (n : ℕ), 1 ≤ n →
      (calculate_phase_vdots c t n).head? = some (pyRound2 c)) ∧
    (∀ (c t : ℚ) (n : ℕ), 2 ≤ n →
      (calculate_phase_vdots c t n).getLast? = some (pyRound2 t)) ∧
    (∀ c t : ℚ, calculate_phase_vdots c t 1 = [pyRound2 c]) := by
  refine ⟨?_, ?_, ?_⟩
  · intro c t n hn
    obtain ⟨m, rfl⟩ : ∃ m, n = m + 1 := ⟨n - 1, by omega⟩
    unfold calculate_phase_vdots
    rw [List.range_succ_eq_map]
    simp
  · intro c t n hn
    obtain ⟨m, rfl⟩ : ∃ m, n = m + 1 := ⟨n - 1, by omega⟩
    have hm0 : m ≠ 0 := by omega
    simp only [calculate_phase_vdots]
    rw [List.range_succ, List.map_append, List.map_cons, List.map_nil,
      List.getLast?_concat]
    simp only [if_neg hm0, if_pos (show 1 < m + 1 by omega)]
    have hcast : ((m + 1 : ℕ) : ℚ) - 1 = (m : ℚ) := by push_cast; ring
    rw [hcast]
    have hmQ : (m : ℚ) ≠ 0 := by exact_mod_cast hm0
    rw [div_mul_cancel₀ _ hmQ]
    have hct : c + (t - c) = t := by ring
    rw [hct]
  · intro c t
    unfold calculate_phase_vdots
    rfl

/-- Witness for the amended claim C2 at `c = 50`, `t = 53`, `n = 4`. -/
theorem c2_amended_witness :
    (calculate_phase_vdots 50 53 4).head? = some (pyRound2 50) ∧
    (calculate_phase_vdots 50 53 4).getLast? = some (pyRound2 53) :=
  ⟨c2_amended.1 50 53 4 (by norm_num), c2_amended.2.1 50 53 4 (by norm_num)⟩

/-! ## Training schedule (claims C3, C4, C10) -/

/-- Claim C10: in both branches, the date returned by
`get_training_start_date` falls on a Monday (day number divisible by 7
under the Monday-epoch convention). -/
theorem c10_start_date_is_monday (today race_date min_weeks : ℤ) :
    get_training_start_date today race_date min_weeks % 7 = 0 := by
  unfold get_training_start_date
  dsimp only
  split_ifs <;> omega

/-- Claim C3 counterexample: with `today = 2` (a Wednesday), a race on
day 85 (11 whole weeks away, fewer than `min_weeks = 12`), the code
returns day 7 — the Monday *after* `race - 12 weeks = day 1`, not the
Monday at or before it (day 0), and it does *not* lie before "now". -/
theorem c3_counterexample :
    get_training_start_date 2 85 12 = 7 ∧
    ((85 : ℤ) - 2) / 7 < 12 ∧
    ¬ get_training_start_date 2 85 12 < 2 := by
  refine ⟨by decide, by decide, by decide⟩

/-- Claim C3, amended: when fewer than `min_weeks` whole weeks remain,
the duration (modelled from the spec, absent from `src/`) is exactly
`min_weeks`, and the start date is `race_date - min_weeks` weeks snapped
*forward* to the Monday at or after that date; consequently it lies at
most 5 days after "now" (and need not lie before it). -/
theorem c3_amended (today race_date min_weeks : ℤ)
    (h : (race_date - today) / 7 < min_weeks) :
    training_window_duration today race_date min_weeks = min_weeks ∧
    get_training_start_date today race_date min_weeks % 7 = 0 ∧
    race_date - 7 * min_weeks ≤ get_training_start_date today race_date min_weeks ∧
    get_training_start_date today race_date min_weeks < race_date - 7 * min_weeks + 7 ∧
    get_training_start_date today race_date min_weeks ≤ today + 5 := by
  unfold training_window_duration get_training_start_date
  dsimp only
  rw [if_pos h, if_pos h]
  refine ⟨rfl, ?_, ?_, ?_, ?_⟩ <;> split_ifs <;> omega

/-- Witness for the amended claim C3 at `today = 2`, race day 85,
`min_weeks = 12`. -/
theorem c3_amended_witness :
    training_window_duration 2 85 12 = 12 ∧
    get_training_start_date 2 85 12 % 7 = 0 ∧
    (85 : ℤ) - 7 * 12 ≤ get_training_start_date 2 85 12 ∧
    get_training_start_date 2 85 12 < 85 - 7 * 12 + 7 ∧
    get_training_start_date 2 85 12 ≤ 2 + 5 :=
  c3_amended 2 85 12 (by decide)

/-- Claim C4 counterexample: `get_training_start_date` reads the ambient
clock (`datetime.now()`, modelled by the `today` argument), so two calls
with identical explicit arguments (race day 100, `min_weeks = 12`) return
different results at two different clock instants — it is not a pure
function of its explicit arguments. -/
theorem c4_counterexample :
    get_training_start_date 0 100 12 ≠ get_training_start_date 50 100 12 := by
  decide

/-- Claim C4, amended: the core's calculators are clock-free, but
`get_training_start_date` depends on `datetime.now()`; the dependence is
confined to the branch test — whenever two clock readings both leave
fewer than `min_weeks` whole weeks to the race, the results coincide
(the insufficient-lead branch uses only the race date and `min_weeks`). -/
theorem c4_amended (t1 t2 race_date min_weeks : ℤ)
    (h1 : (race_date - t1) / 7 < min_weeks)
    (h2 : (race_date - t2) / 7 < min_weeks) :
    get_training_start_date t1 race_date min_weeks =
      get_training_start_date t2 race_date min_weeks := by
  unfold get_training_start_date
  dsimp only
  rw [if_pos h1, if_pos h2]

/-- Witness for the amended claim C4: clock readings 50 and 51, race on
day 100, `min_weeks = 12`. -/
theorem c4_amended_witness :
    get_training_start_date 50 100 12 = get_training_start_date 51 100 12 :=
  c4_amended 50 51 100 12 (by decide) (by decide)

/-! ## Character and string lemmas -/

theorem isDigitChar_not_special {c : Char} (h : isDigitChar c = true) :
    c ≠ ':' ∧ c ≠ '：' ∧ isSpaceChar c = false ∧ c ≠ '-' ∧ c ≠ '+' := by
  have hn : 48 ≤ c.toNat ∧ c.toNat ≤ 57 := of_decide_eq_true h
  refine ⟨fun he => ?_, fun he => ?_, ?_, fun he => ?_, fun he => ?_⟩
  · subst he; exact absurd hn (by decide)
  · subst he; exact absurd hn (by decide)
  · unfold isSpaceChar
    have h1 : (c == ' ') = false :=
      beq_eq_false_iff_ne.mpr (fun he => by subst he; exact absurd hn (by decide))
    have h2 : (c == '\t') = false :=
      beq_eq_false_iff_ne.mpr (fun he => by subst he; exact absurd hn (by decide))
    have h3 : (c == '\n') = false :=
      beq_eq_false_iff_ne.mpr (fun he => by subst he; exact absurd hn (by decide))
    have h4 : (c == '\r') = false :=
      beq_eq_false_iff_ne.mpr (fun he => by subst he; exact absurd hn (by decide))
    rw [h1, h2, h3, h4]
    rfl
  · subst he; exact absurd hn (by decide)
  · subst he; exact absurd hn (by decide)

theorem digitChar_isDigit {d : ℕ} (h : d < 10) : isDigitChar (Nat.digitChar d) = true := by
  interval_cases d <;> decide

theorem charDigit_digitChar {d : ℕ} (h : d < 10) : charDigit (Nat.digitChar d) = d := by
  interval_cases d <;> decide

theorem printNatAux_all_digits :
    ∀ (fuel n : ℕ), ∀ c ∈ printNatAux fuel n, isDigitChar c = true := by
  intro fuel
  induction fuel with
  | zero => intro n c hc; simp [printNatAux] at hc
  | succ fuel ih =>
    intro n c hc
    rw [printNatAux] at hc
    by_cases hn : n = 0
    · rw [if_pos hn] at hc; simp at hc
    · rw [if_neg hn] at hc
      rcases List.mem_append.mp hc with hc | hc
      · exact ih _ c hc
      · rcases List.mem_singleton.mp hc with rfl
        exact digitChar_isDigit (Nat.mod_lt _ (by norm_num))

theorem printNatAux_foldl :
    ∀ (fuel n a : ℕ), n ≤ fuel →
      List.foldl (fun a c => 10 * a + charDigit c) a (printNatAux fuel n) =
        a * 10 ^ (printNatAux fuel n).length + n := by
  intro fuel
  induction fuel with
  | zero =>
    intro n a hn
    obtain rfl : n = 0 := by omega
    simp [printNatAux]
  | succ fuel ih =>
    intro n a hn
    by_cases h0 : n = 0
    · subst h0; simp [printNatAux]
    · rw [printNatAux, if_neg h0, List.foldl_append, List.length_append]
      have hdiv : n / 10 ≤ fuel := by
        have := Nat.div_lt_self (show 0 < n by omega) (show 1 < 10 by norm_num)
        omega
      rw [ih _ a hdiv]
      simp only [List.foldl_cons, List.foldl_nil, List.length_cons, List.length_nil]
      rw [charDigit_digitChar (Nat.mod_lt _ (by norm_num))]
      set q := n / 10 with hq
      set r := n % 10 with hr
      have hk : n = 10 * q + r := by omega
      conv_rhs => rw [hk]
      rw [pow_succ]
      ring

theorem printNatAux_ne_nil {fuel n : ℕ} (h0 : 0 < n) (hf : n ≤ fuel) :
    printNatAux fuel n ≠ [] := by
  match fuel with
  | 0 => omega
  | fuel + 1 => rw [printNatAux, if_neg (by omega : n ≠ 0)]; simp

theorem printNat_ne_nil (n : ℕ) : printNat n ≠ [] := by
  unfold printNat
  split_ifs with h
  · simp
  · exact printNatAux_ne_nil (by omega) le_rfl

theorem printNat_all_digits (n : ℕ) : ∀ c ∈ printNat n, isDigitChar c = true := by
  unfold printNat
  split_ifs with h
  · intro c hc; rcases List.mem_singleton.mp hc with rfl; decide
  · exact printNatAux_all_digits n n

theorem parseDigits_printNat (n : ℕ) : parseDigits (printNat n) = some n := by
  by_cases h : n = 0
  · subst h; decide
  · have hne : printNat n ≠ [] := printNat_ne_nil n
    obtain ⟨c, cs, hcons⟩ := List.exists_cons_of_ne_nil hne
    have hall : (printNat n).all isDigitChar = true :=
      List.all_eq_true.mpr (printNat_all_digits n)
    have hfold :
        List.foldl (fun a c => 10 * a + charDigit c) 0 (printNat n) =
          0 * 10 ^ (printNat n).length + n := by
      have hpn : printNat n = printNatAux n n := by unfold printNat; rw [if_neg h]
      rw [hpn]
      exact printNatAux_foldl n n 0 le_rfl
    rw [hcons] at hall hfold ⊢
    rw [parseDigits, if_pos hall, hfold]
    simp

theorem printInt_natCast (k : ℕ) : printInt ((k : ℕ) : ℤ) = printNat k := by
  unfold printInt
  rw [if_neg (by exact_mod_cast Int.not_lt.mpr (Int.natCast_nonneg k))]
  simp

theorem printInt_all_digits (k : ℕ) : ∀ c ∈ printInt ((k : ℕ) : ℤ), isDigitChar c = true := by
  rw [printInt_natCast]; exact printNat_all_digits k

theorem pad2_natCast_all_digits (k : ℕ) : ∀ c ∈ pad2 ((k : ℕ) : ℤ), isDigitChar c = true := by
  unfold pad2
  split_ifs with h
  · intro c hc
    rcases List.mem_cons.mp hc with rfl | hc
    · decide
    · exact printInt_all_digits k c hc
  · exact printInt_all_digits k

theorem pad2_ne_nil (n : ℤ) : pad2 n ≠ [] := by
  unfold pad2 printInt
  split_ifs <;> simp [printNat_ne_nil]

theorem parseDigits_zero_pad (s : List Char) (h : s ≠ []) :
    parseDigits ('0' :: s) = parseDigits s := by
  obtain ⟨c, cs, rfl⟩ := List.exists_cons_of_ne_nil h
  have h0 : isDigitChar '0' = true := by decide
  have hc0 : charDigit '0' = 0 := by decide
  rw [parseDigits, parseDigits, List.all_cons, h0, Bool.true_and]
  simp only [List.foldl_cons, hc0]

theorem parseDigits_pad2 (k : ℕ) : parseDigits (pad2 ((k : ℕ) : ℤ)) = some k := by
  unfold pad2
  rw [printInt_natCast]
  split_ifs with hl
  · rw [parseDigits_zero_pad _ (printNat_ne_nil k)]
    exact parseDigits_printNat k
  · exact parseDigits_printNat k

theorem pyStrip_eq_self {s : List Char} (h : ∀ c ∈ s, isSpaceChar c = false) :
    pyStrip s = s := by
  have hd : ∀ (l : List Char), (∀ c ∈ l, isSpaceChar c = false) →
      l.dropWhile isSpaceChar = l := by
    intro l hl
    cases l with
    | nil => rfl
    | cons a t => rw [List.dropWhile_cons, hl a (List.mem_cons_self a t)]; simp
  unfold pyStrip
  rw [hd s h, hd s.reverse (fun c hc => h c (List.mem_reverse.mp hc)), List.reverse_reverse]

theorem normColon_eq_self {s : List Char} (h : ∀ c ∈ s, c ≠ '：') : normColon s = s := by
  unfold normColon
  conv_rhs => rw [← List.map_id s]
  exact List.map_congr_left fun c hc => by rw [if_neg (h c hc)]; rfl

theorem splitOnColon_ne_nil (s : List Char) : splitOnColon s ≠ [] := by
  induction s with
  | nil => simp [splitOnColon]
  | cons c cs ih =>
    rw [splitOnColon]
    split_ifs
    · simp
    · rcases hsp : splitOnColon cs with _ | ⟨p, ps⟩
      · exact absurd hsp ih
      · simp

theorem splitOnColon_no_colon {a : List Char} (h : ∀ c ∈ a, c ≠ ':') :
    splitOnColon a = [a] := by
  induction a with
  | nil => rfl
  | cons c cs ih =>
    rw [splitOnColon, if_neg (h c (List.mem_cons_self c cs))]
    rw [ih (fun x hx => h x (List.mem_cons_of_mem c hx))]

theorem splitOnColon_append {a : List Char} (h : ∀ c ∈ a, c ≠ ':') (r : List Char) :
    splitOnColon (a ++ ':' :: r) = a :: splitOnColon r := by
  induction a with
  | nil => simp [splitOnColon]
  | cons c cs ih =>
    rw [List.cons_append, splitOnColon, if_neg (h c (List.mem_cons_self c cs))]
    rw [ih (fun x hx => h x (List.mem_cons_of_mem c hx))]

theorem pyParseInt_digits {s : List Char} (hne : s ≠ [])
    (h : ∀ c ∈ s, isDigitChar c = true) :
    pyParseInt s = (parseDigits s).map (fun (n : ℕ) => (n : ℤ)) := by
  obtain ⟨c, cs, rfl⟩ := List.exists_cons_of_ne_nil hne
  have hstrip : pyStrip (c :: cs) = c :: cs :=
    pyStrip_eq_self (fun x hx => (isDigitChar_not_special (h x hx)).2.2.1)
  have hc := isDigitChar_not_special (h c (List.mem_cons_self c cs))
  rw [pyParseInt, hstrip]
  dsimp only
  rw [if_neg hc.2.2.2.1, if_neg hc.2.2.2.2]

theorem pyParseInt_printNat (n : ℕ) : pyParseInt (printNat n) = some ((n : ℕ) : ℤ) := by
  rw [pyParseInt_digits (printNat_ne_nil n) (printNat_all_digits n), parseDigits_printNat]
  rfl

theorem pyParseInt_pad2 (k : ℕ) : pyParseInt (pad2 ((k : ℕ) : ℤ)) = some ((k : ℕ) : ℤ) := by
  rw [pyParseInt_digits (pad2_ne_nil _) (pad2_natCast_all_digits k), parseDigits_pad2]
  rfl

/-! ## Floor arithmetic for the duration formatter -/

theorem floor_q_div_of_floor {q : ℚ} (hq : 0 ≤ q) {d : ℕ} (hd : 0 < d) :
    ⌊q / ((d : ℕ) : ℚ)⌋ = ((⌊q⌋₊ / d : ℕ) : ℤ) := by
  have hdq : (0 : ℚ) < ((d : ℕ) : ℚ) := by exact_mod_cast hd
  have hcast : (((⌊q⌋₊ / d : ℕ) : ℤ) : ℚ) = ((⌊q⌋₊ / d : ℕ) : ℚ) := Int.cast_natCast _
  rw [Int.floor_eq_iff, hcast]
  constructor
  · rw [le_div_iff₀ hdq]
    have h1 : (⌊q⌋₊ / d) * d ≤ ⌊q⌋₊ := Nat.div_mul_le_self _ _
    calc ((⌊q⌋₊ / d : ℕ) : ℚ) * ((d : ℕ) : ℚ) = (((⌊q⌋₊ / d * d : ℕ) : ℚ)) := by
          rw [Nat.cast_mul]
      _ ≤ ((⌊q⌋₊ : ℕ) : ℚ) := by exact_mod_cast h1
      _ ≤ q := Nat.floor_le hq
  · rw [div_lt_iff₀ hdq]
    have hnat : ⌊q⌋₊ + 1 ≤ (⌊q⌋₊ / d + 1) * d := by
      have h1 := Nat.div_add_mod (⌊q⌋₊) d
      have h2 := Nat.mod_lt (⌊q⌋₊) hd
      nlinarith
    calc q < ((⌊q⌋₊ : ℕ) : ℚ) + 1 := Nat.lt_floor_add_one q
      _ = (((⌊q⌋₊ + 1 : ℕ) : ℚ)) := by rw [Nat.cast_add, Nat.cast_one]
      _ ≤ (((⌊q⌋₊ / d + 1) * d : ℕ) : ℚ) := by exact_mod_cast hnat
      _ = (((⌊q⌋₊ / d : ℕ) : ℚ) + 1) * ((d : ℕ) : ℚ) := by
          rw [Nat.cast_mul, Nat.cast_add, Nat.cast_one]

theorem intFloor_nonneg_eq {q : ℚ} (hq : 0 ≤ q) : ⌊q⌋ = ((⌊q⌋₊ : ℕ) : ℤ) := by
  rw [← Int.floor_toNat, Int.toNat_of_nonneg (Int.floor_nonneg.mpr hq)]

theorem pyMod_nonneg_floor {q : ℚ} (hq : 0 ≤ q) {d : ℕ} (hd : 0 < d) :
    pyMod q ((d : ℕ) : ℚ) = q - ((d * (⌊q⌋₊ / d) : ℕ) : ℚ) ∧
      0 ≤ pyMod q ((d : ℕ) : ℚ) ∧
      ⌊pyMod q ((d : ℕ) : ℚ)⌋₊ = ⌊q⌋₊ % d := by
  have h1 : pyMod q ((d : ℕ) : ℚ) = q - ((d * (⌊q⌋₊ / d) : ℕ) : ℚ) := by
    unfold pyMod
    rw [floor_q_div_of_floor hq hd, Int.cast_natCast, Nat.cast_mul]
  have hle : ((d * (⌊q⌋₊ / d) : ℕ) : ℚ) ≤ q := by
    calc ((d * (⌊q⌋₊ / d) : ℕ) : ℚ) ≤ ((⌊q⌋₊ : ℕ) : ℚ) := by
          exact_mod_cast Nat.mul_div_le (⌊q⌋₊) d
      _ ≤ q := Nat.floor_le hq
  refine ⟨h1, by rw [h1]; linarith, ?_⟩
  rw [h1, Nat.floor_sub_nat]
  have h2 := Nat.div_add_mod (⌊q⌋₊) d
  omega

theorem stt_hours {q : ℚ} (hq : 0 ≤ q) :
    pyIntOf (pyFloorDiv q 3600) = ((⌊q⌋₊ / 3600 : ℕ) : ℤ) := by
  unfold pyFloorDiv
  rw [pyIntOf_intCast, show (3600 : ℚ) = ((3600 : ℕ) : ℚ) by norm_num]
  exact floor_q_div_of_floor hq (by norm_num)

theorem stt_minutes {q : ℚ} (hq : 0 ≤ q) :
    pyIntOf (pyFloorDiv (pyMod q 3600) 60) = ((⌊q⌋₊ % 3600 / 60 : ℕ) : ℤ) := by
  rw [show (3600 : ℚ) = ((3600 : ℕ) : ℚ) by norm_num,
    show (60 : ℚ) = ((60 : ℕ) : ℚ) by norm_num]
  obtain ⟨heq, hnn, hfl⟩ := pyMod_nonneg_floor hq (show 0 < 3600 by norm_num)
  unfold pyFloorDiv
  rw [pyIntOf_intCast, floor_q_div_of_floor hnn (by norm_num : (0:ℕ) < 60), hfl]

theorem stt_secs {q : ℚ} (hq : 0 ≤ q) :
    pyIntOf (pyMod q 60) = ((⌊q⌋₊ % 60 : ℕ) : ℤ) := by
  rw [show (60 : ℚ) = ((60 : ℕ) : ℚ) by norm_num]
  obtain ⟨heq, hnn, hfl⟩ := pyMod_nonneg_floor hq (show 0 < 60 by norm_num)
  rw [pyIntOf, if_pos hnn, intFloor_nonneg_eq hnn, hfl]

/-- Rendering of `seconds_to_time` on a nonnegative input, in terms of the
integer fields `⌊q⌋₊ / 3600`, `⌊q⌋₊ % 3600 / 60` and `⌊q⌋₊ % 60`. -/
theorem seconds_to_time_render (q : ℚ) (hq : 0 ≤ q) (b : Bool) :
    seconds_to_time (some q) b =
      if b || decide (3600 ≤ ⌊q⌋₊) then
        printNat (⌊q⌋₊ / 3600) ++ ':' ::
          (pad2 ((⌊q⌋₊ % 3600 / 60 : ℕ) : ℤ) ++ ':' :: pad2 ((⌊q⌋₊ % 60 : ℕ) : ℤ))
      else
        printNat (⌊q⌋₊ % 3600 / 60) ++ ':' :: pad2 ((⌊q⌋₊ % 60 : ℕ) : ℤ) := by
  simp only [seconds_to_time]
  rw [stt_hours hq, stt_minutes hq, stt_secs hq]
  have hcond : decide ((0 : ℤ) < ((⌊q⌋₊ / 3600 : ℕ) : ℤ)) = decide (3600 ≤ ⌊q⌋₊) :=
    decide_eq_decide.mpr (by omega)
  rw [hcond, printInt_natCast, printInt_natCast]

/-! ## Duration codec round-trip (claim C6) -/

/-- Claim C6: for every nonnegative integer number of seconds, formatting
with hours forced and parsing back returns the input exactly:
`time_to_seconds (seconds_to_time s True) = s`. -/
theorem c6_codec_roundtrip (s : ℕ) :
    time_to_seconds (seconds_to_time (some ((s : ℕ) : ℚ)) true) = some ((s : ℕ) : ℤ) := by
  rw [seconds_to_time_render _ (by positivity) true, Nat.floor_natCast]
  simp only [Bool.true_or, if_true]
  set A := printNat (s / 3600) with hA
  set B := pad2 ((s % 3600 / 60 : ℕ) : ℤ) with hB
  set C := pad2 ((s % 60 : ℕ) : ℤ) with hC
  have hAd : ∀ c ∈ A, isDigitChar c = true := printNat_all_digits _
  have hBd : ∀ c ∈ B, isDigitChar c = true := pad2_natCast_all_digits _
  have hCd : ∀ c ∈ C, isDigitChar c = true := pad2_natCast_all_digits _
  have hne : A ++ ':' :: (B ++ ':' :: C) ≠ [] := by
    have := printNat_ne_nil (s / 3600)
    rw [← hA] at this
    intro h
    rcases List.append_eq_nil.mp h with ⟨h1, _⟩
    exact this h1
  rw [time_to_seconds, if_neg hne]
  have hmemsp : ∀ c ∈ A ++ ':' :: (B ++ ':' :: C), isSpaceChar c = false := by
    intro c hc
    rcases List.mem_append.mp hc with hc | hc
    · exact (isDigitChar_not_special (hAd c hc)).2.2.1
    · rcases List.mem_cons.mp hc with rfl | hc
      · decide
      · rcases List.mem_append.mp hc with hc | hc
        · exact (isDigitChar_not_special (hBd c hc)).2.2.1
        · rcases List.mem_cons.mp hc with rfl | hc
          · decide
          · exact (isDigitChar_not_special (hCd c hc)).2.2.1
  have hmemfc : ∀ c ∈ A ++ ':' :: (B ++ ':' :: C), c ≠ '：' := by
    intro c hc
    rcases List.mem_append.mp hc with hc | hc
    · exact (isDigitChar_not_special (hAd c hc)).2.1
    · rcases List.mem_cons.mp hc with rfl | hc
      · decide
      · rcases List.mem_append.mp hc with hc | hc
        · exact (isDigitChar_not_special (hBd c hc)).2.1
        · rcases List.mem_cons.mp hc with rfl | hc
          · decide
          · exact (isDigitChar_not_special (hCd c hc)).2.1
  rw [pyStrip_eq_self hmemsp, normColon_eq_self hmemfc]
  rw [splitOnColon_append (fun c hc => (isDigitChar_not_special (hAd c hc)).1)]
  rw [splitOnColon_append (fun c hc => (isDigitChar_not_special (hBd c hc)).1)]
  rw [splitOnColon_no_colon (fun c hc => (isDigitChar_not_special (hCd c hc)).1)]
  have hPA : pyParseInt A = some ((s / 3600 : ℕ) : ℤ) := pyParseInt_printNat _
  have hPB : pyParseInt B = some ((s % 3600 / 60 : ℕ) : ℤ) := pyParseInt_pad2 _
  have hPC : pyParseInt C = some ((s % 60 : ℕ) : ℤ) := pyParseInt_pad2 _
  simp only [parseParts, hPA, hPB, hPC]
  simp only [Option.some.injEq]
  omega

/-! ## Duration formatter (claim C5) -/

/-- Claim C5 counterexample: `seconds_to_time` does not round its input to
the nearest whole second — it truncates.  At input `59.6` the nearest
whole second is `60` (Python `round(59.6) == 60`), which would format as
`"1:00"`, but the function formats `"0:59"`. -/
theorem c5_counterexample :
    seconds_to_time (some (298/5)) false = "0:59".toList ∧
    rheInt ((298 : ℚ)/5) = 60 ∧
    seconds_to_time (some (60 : ℚ)) false = "1:00".toList ∧
    "0:59".toList ≠ "1:00".toList := by
  refine ⟨?_, ?_, ?_, by decide⟩
  · have h1 : (⌊(298/5 : ℚ)⌋₊ : ℕ) = 59 := by
      rw [Nat.floor_eq_iff (by norm_num)]
      norm_num
    rw [seconds_to_time_render _ (by norm_num) false, h1]
    norm_num
    decide
  · have h2 : (⌊(298/5 : ℚ)⌋ : ℤ) = 59 := by norm_num
    unfold rheInt
    rw [h2, if_neg (by norm_num), if_pos (by norm_num)]
    norm_num
  · have h3 : (⌊(60 : ℚ)⌋₊ : ℕ) = 60 := by
      rw [Nat.floor_eq_iff (by norm_num)]
      norm_num
    rw [seconds_to_time_render _ (by norm_num) false, h3]
    norm_num
    decide

/-- Claim C5, amended: `seconds_to_time` *truncates* its input to a whole
second (formatting a nonnegative input is the same as formatting its
floor) rather than rounding to nearest; it renders `H:MM:SS` when
`force_hours` is set or seconds ≥ 3600 and `M:SS` otherwise, and a null
input formats to `"N/A"` without raising; the scenario
`seconds_to_time(3661, True) = "1:01:01"` holds. -/
theorem c5_amended :
    (∀ q : ℚ, 0 ≤ q → ∀ b,
      seconds_to_time (some q) b = seconds_to_time (some ((⌊q⌋ : ℤ) : ℚ)) b) ∧
    (∀ (s : ℕ) (b : Bool), b = true ∨ 3600 ≤ s →
      seconds_to_time (some ((s : ℕ) : ℚ)) b =
        printNat (s / 3600) ++ ':' ::
          (pad2 ((s % 3600 / 60 : ℕ) : ℤ) ++ ':' :: pad2 ((s % 60 : ℕ) : ℤ))) ∧
    (∀ s : ℕ, s < 3600 →
      seconds_to_time (some ((s : ℕ) : ℚ)) false =
        printNat (s % 3600 / 60) ++ ':' :: pad2 ((s % 60 : ℕ) : ℤ)) ∧
    (∀ b, seconds_to_time none b = "N/A".toList) ∧
    seconds_to_time (some 3661) true = "1:01:01".toList := by
  refine ⟨?_, ?_, ?_, fun b => rfl, ?_⟩
  · intro q hq b
    have hq2 : (0 : ℚ) ≤ ((⌊q⌋ : ℤ) : ℚ) := by exact_mod_cast Int.floor_nonneg.mpr hq
    rw [seconds_to_time_render q hq b, seconds_to_time_render _ hq2 b]
    rw [intFloor_nonneg_eq hq, Int.cast_natCast, Nat.floor_natCast]
  · intro s b hb
    rw [seconds_to_time_render _ (by positivity) b, Nat.floor_natCast]
    have hcond : (b || decide (3600 ≤ s)) = true := by
      rcases hb with rfl | hb
      · rfl
      · simp [hb]
    rw [hcond]
    simp
  · intro s hs
    rw [seconds_to_time_render _ (by positivity) false, Nat.floor_natCast]
    have hcond : (false || decide (3600 ≤ s)) = false := by
      simp
      omega
    rw [hcond]
    simp
  · have h1 : (⌊(3661 : ℚ)⌋₊ : ℕ) = 3661 := by
      rw [Nat.floor_eq_iff (by norm_num)]
      norm_num
    rw [seconds_to_time_render _ (by norm_num) true, h1]
    decide

/-- Witness for the amended claim C5: truncation at `59.6`, `H:MM:SS`
rendering at 3661 seconds with hours forced, `M:SS` rendering at 330
seconds. -/
theorem c5_amended_witness :
    seconds_to_time (some (298/5)) false =
      seconds_to_time (some ((⌊(298/5 : ℚ)⌋ : ℤ) : ℚ)) false ∧
    seconds_to_time (some ((3661 : ℕ) : ℚ)) true =
      printNat (3661 / 3600) ++ ':' ::
        (pad2 ((3661 % 3600 / 60 : ℕ) : ℤ) ++ ':' :: pad2 ((3661 % 60 : ℕ) : ℤ)) ∧
    seconds_to_time (some ((330 : ℕ) : ℚ)) false =
      printNat (330 % 3600 / 60) ++ ':' :: pad2 ((330 % 60 : ℕ) : ℤ) :=
  ⟨c5_amended.1 (298/5) (by norm_num) false,
   c5_amended.2.1 3661 true (Or.inl rfl),
   c5_amended.2.2.1 330 (by norm_num)⟩

/-! ## VDOT calculator lemmas (claims C1, C7) -/

theorem sortByTimeDesc_eq_self {l : List (ℤ × ℤ)} (h : WFTable l) :
    sortByTimeDesc l = l := by
  induction l with
  | nil => rfl
  | cons a t ih =>
    rw [sortByTimeDesc, ih (List.Pairwise.of_cons h)]
    cases t with
    | nil => rfl
    | cons b r =>
      rw [insertByTime, if_pos]
      exact le_of_lt ((List.pairwise_cons.mp h).1 b (List.mem_cons_self b r)).1

theorem calcCore_single (a : ℤ × ℤ) (d : ℤ) : calcCore [a] d = some ((a.1 : ℚ)) := by
  by_cases h : a.2 ≤ d <;>
    simp [calcCore, findLower, h, finishInterp]

theorem calcCore_cons_clamp {a : ℤ × ℤ} (l : List (ℤ × ℤ)) {d : ℤ} (h : a.2 ≤ d) :
    calcCore (a :: l) d = some ((a.1 : ℚ)) := by
  simp [calcCore, findLower, h, finishInterp]

theorem finishInterp_pair {a b : ℤ × ℤ} (hv : a.1 < b.1) (ht : b.2 < a.2) (d : ℤ) :
    finishInterp b (some a) d = pyRound2 (interpVal a b d) := by
  simp only [finishInterp]
  rw [if_neg (by omega : ¬ a.1 > b.1)]
  rw [if_pos (show (a, b).1.2 ≠ (a, b).2.2 by dsimp only; omega)]

theorem calcCore_cons₂ {a b : ℤ × ℤ} {rest : List (ℤ × ℤ)} {d : ℤ}
    (hWF : WFTable (a :: b :: rest)) (hd : ¬ a.2 ≤ d) :
    calcCore (a :: b :: rest) d =
      if b.2 ≤ d ∨ rest = [] then some (pyRound2 (interpVal a b d))
      else calcCore (b :: rest) d := by
  obtain hab := (List.pairwise_cons.mp hWF).1 b (List.mem_cons_self b rest)
  by_cases hb : b.2 ≤ d
  · rw [if_pos (Or.inl hb)]
    have hfl : findLower (a :: b :: rest) none d = some (b, some a) := by
      rw [findLower, if_neg hd, findLower, if_pos hb]
    rw [calcCore, hfl]
    dsimp only
    rw [finishInterp_pair hab.2 hab.1]
  · by_cases hr : rest = []
    · subst hr
      rw [if_pos (Or.inr rfl)]
      have hfl : findLower [a, b] none d = none := by
        rw [findLower, if_neg hd, findLower, if_neg hb, findLower]
      rw [calcCore, hfl]
      dsimp only
      rw [show ([a, b].getLast? = some b) from rfl]
      dsimp only
      rw [if_pos (show 1 < [a, b].length by simp)]
      rw [show ([a, b].dropLast.getLast? = some a) from rfl]
      rw [finishInterp_pair hab.2 hab.1]
    · rw [if_neg (by tauto)]
      have hfl1 : findLower (a :: b :: rest) none d = findLower rest (some b) d := by
        rw [findLower, if_neg hd, findLower, if_neg hb]
      have hfl2 : findLower (b :: rest) none d = findLower rest (some b) d := by
        rw [findLower, if_neg hb]
      rw [calcCore, hfl1]
      conv_rhs => rw [calcCore, hfl2]
      cases hscan : findLower rest (some b) d with
      | some lu => rfl
      | none =>
        obtain ⟨z, rs, rfl⟩ := List.exists_cons_of_ne_nil hr
        dsimp only
        obtain ⟨y, hy⟩ : ∃ y, (z :: rs).getLast? = some y :=
          ⟨(z :: rs).getLast (by simp), List.getLast?_eq_getLast _ _⟩
        have hy1 : (a :: b :: z :: rs).getLast? = some y := by
          rw [List.getLast?_cons_cons, List.getLast?_cons_cons, hy]
        have hy2 : (b :: z :: rs).getLast? = some y := by
          rw [List.getLast?_cons_cons, hy]
        rw [hy1, hy2]
        dsimp only
        rw [if_pos (show 1 < (a :: b :: z :: rs).length by simp)]
        rw [if_pos (show 1 < (b :: z :: rs).length by simp)]
        have hdl : (a :: b :: z :: rs).dropLast.getLast? = (b :: z :: rs).dropLast.getLast? := by
          rw [List.dropLast_cons₂, List.dropLast_cons₂ (x := b), List.getLast?_cons_cons]
        rw [hdl]

theorem interpVal_ge {a b : ℤ × ℤ} (ht : b.2 < a.2) (hv : a.1 < b.1) {d : ℤ}
    (hd : d < a.2) : (a.1 : ℚ) ≤ interpVal a b d := by
  unfold interpVal
  have h1 : (0 : ℚ) ≤ (b.1 : ℚ) - (a.1 : ℚ) := by
    have : (a.1 : ℚ) ≤ (b.1 : ℚ) := by exact_mod_cast hv.le
    linarith
  have h2 : (0 : ℚ) ≤ (a.2 : ℚ) - (d : ℚ) := by
    have : (d : ℚ) ≤ (a.2 : ℚ) := by exact_mod_cast hd.le
    linarith
  have h3 : (0 : ℚ) ≤ (a.2 : ℚ) - (b.2 : ℚ) := by
    have : (b.2 : ℚ) ≤ (a.2 : ℚ) := by exact_mod_cast ht.le
    linarith
  have := mul_nonneg h1 (div_nonneg h2 h3)
  linarith

theorem interpVal_le {a b : ℤ × ℤ} (ht : b.2 < a.2) (hv : a.1 < b.1) {d : ℤ}
    (hd : b.2 ≤ d) : interpVal a b d ≤ (b.1 : ℚ) := by
  unfold interpVal
  have h3 : (0 : ℚ) < (a.2 : ℚ) - (b.2 : ℚ) := by
    have : (b.2 : ℚ) < (a.2 : ℚ) := by exact_mod_cast ht
    linarith
  have h1 : (0 : ℚ) ≤ (b.1 : ℚ) - (a.1 : ℚ) := by
    have : (a.1 : ℚ) ≤ (b.1 : ℚ) := by exact_mod_cast hv.le
    linarith
  have hr1 : ((a.2 : ℚ) - (d : ℚ)) / ((a.2 : ℚ) - (b.2 : ℚ)) ≤ 1 := by
    rw [div_le_one h3]
    have : (b.2 : ℚ) ≤ (d : ℚ) := by exact_mod_cast hd
    linarith
  have := mul_le_of_le_one_right h1 hr1
  linarith

theorem interpVal_anti {a b : ℤ × ℤ} (ht : b.2 < a.2) (hv : a.1 < b.1) {d1 d2 : ℤ}
    (hd : d1 ≤ d2) : interpVal a b d2 ≤ interpVal a b d1 := by
  have h3 : (0 : ℚ) < (a.2 : ℚ) - (b.2 : ℚ) := by
    have : (b.2 : ℚ) < (a.2 : ℚ) := by exact_mod_cast ht
    linarith
  have h1 : (0 : ℚ) ≤ (b.1 : ℚ) - (a.1 : ℚ) := by
    have : (a.1 : ℚ) ≤ (b.1 : ℚ) := by exact_mod_cast hv.le
    linarith
  have h2 : (0 : ℚ) ≤ (d2 : ℚ) - (d1 : ℚ) := by
    have : (d1 : ℚ) ≤ (d2 : ℚ) := by exact_mod_cast hd
    linarith
  have key : interpVal a b d1 - interpVal a b d2 =
      ((b.1 : ℚ) - (a.1 : ℚ)) * ((d2 : ℚ) - (d1 : ℚ)) / ((a.2 : ℚ) - (b.2 : ℚ)) := by
    unfold interpVal
    field_simp
    ring
  have hpos : 0 ≤ ((b.1 : ℚ) - (a.1 : ℚ)) * ((d2 : ℚ) - (d1 : ℚ)) / ((a.2 : ℚ) - (b.2 : ℚ)) :=
    div_nonneg (mul_nonneg h1 h2) h3.le
  linarith

theorem calcCore_lb : ∀ (l : List (ℤ × ℤ)) (a : ℤ × ℤ), WFTable (a :: l) →
    ∀ (d : ℤ) (r : ℚ), d < a.2 → calcCore (a :: l) d = some r → (a.1 : ℚ) ≤ r := by
  intro l
  induction l with
  | nil =>
    intro a _ d r _ hc
    rw [calcCore_single] at hc
    simp only [Option.some.injEq] at hc
    rw [← hc]
  | cons b rest ih =>
    intro a hWF d r hd hc
    obtain hab := (List.pairwise_cons.mp hWF).1 b (List.mem_cons_self b rest)
    rw [calcCore_cons₂ hWF (by omega)] at hc
    by_cases hbr : b.2 ≤ d ∨ rest = []
    · rw [if_pos hbr] at hc
      simp only [Option.some.injEq] at hc
      have h1 : (a.1 : ℚ) ≤ interpVal a b d := interpVal_ge hab.1 hab.2 hd
      have h2 := pyRound2_mono h1
      rw [pyRound2_intCast] at h2
      rw [← hc]
      exact h2
    · rw [if_neg hbr] at hc
      push_neg at hbr
      have hlb := ih b (List.Pairwise.of_cons hWF) d r (by omega) hc
      have : (a.1 : ℚ) ≤ (b.1 : ℚ) := by exact_mod_cast hab.2.le
      linarith

theorem calcCore_mono : ∀ (l : List (ℤ × ℤ)), WFTable l →
    ∀ (d1 d2 : ℤ) (r1 r2 : ℚ), d1 ≤ d2 →
      calcCore l d1 = some r1 → calcCore l d2 = some r2 → r2 ≤ r1 := by
  intro l
  induction l with
  | nil =>
    intro _ d1 d2 r1 r2 _ hc1 _
    exact absurd hc1 (by simp [calcCore, findLower])
  | cons a t ih =>
    intro hWF d1 d2 r1 r2 hd hc1 hc2
    cases t with
    | nil =>
      rw [calcCore_single] at hc1 hc2
      simp only [Option.some.injEq] at hc1 hc2
      rw [← hc1, ← hc2]
    | cons b rest =>
      obtain hab := (List.pairwise_cons.mp hWF).1 b (List.mem_cons_self b rest)
      by_cases ha2 : a.2 ≤ d2
      · rw [calcCore_cons_clamp _ ha2] at hc2
        simp only [Option.some.injEq] at hc2
        by_cases ha1 : a.2 ≤ d1
        · rw [calcCore_cons_clamp _ ha1] at hc1
          simp only [Option.some.injEq] at hc1
          rw [← hc1, ← hc2]
        · have := calcCore_lb (b :: rest) a hWF d1 r1 (by omega) hc1
          rw [← hc2]
          exact this
      · have ha1 : ¬ a.2 ≤ d1 := by omega
        rw [calcCore_cons₂ hWF ha1] at hc1
        rw [calcCore_cons₂ hWF ha2] at hc2
        by_cases hb2 : b.2 ≤ d2 ∨ rest = []
        · rw [if_pos hb2] at hc2
          simp only [Option.some.injEq] at hc2
          by_cases hb1 : b.2 ≤ d1 ∨ rest = []
          · rw [if_pos hb1] at hc1
            simp only [Option.some.injEq] at hc1
            rw [← hc1, ← hc2]
            exact pyRound2_mono (interpVal_anti hab.1 hab.2 hd)
          · push_neg at hb1
            have hbd2 : b.2 ≤ d2 := hb2.resolve_right hb1.2
            rw [if_neg (not_or.mpr ⟨by omega, hb1.2⟩)] at hc1
            have hlb := calcCore_lb rest b (List.Pairwise.of_cons hWF) d1 r1 (by omega) hc1
            have h1 : interpVal a b d2 ≤ (b.1 : ℚ) := interpVal_le hab.1 hab.2 hbd2
            have h2 := pyRound2_mono h1
            rw [pyRound2_intCast] at h2
            rw [← hc2]
            linarith
        · have hb1 : ¬ (b.2 ≤ d1 ∨ rest = []) := by
            push_neg at hb2 ⊢
            exact ⟨by omega, hb2.2⟩
          rw [if_neg hb1] at hc1
          rw [if_neg hb2] at hc2
          exact ih (List.Pairwise.of_cons hWF) d1 d2 r1 r2 hd hc1 hc2

theorem calcCore_extrapolate : ∀ (pairs : List (ℤ × ℤ)) (x y : ℤ × ℤ) (d : ℤ),
    WFTable pairs → pairs.dropLast.getLast? = some x → pairs.getLast? = some y →
    d < y.2 → calcCore pairs d = some (pyRound2 (interpVal x y d)) := by
  intro pairs
  induction pairs with
  | nil => intro x y d _ hx; simp at hx
  | cons a t ih =>
    intro x y d hWF hx hy hd
    cases t with
    | nil => simp at hx
    | cons b rest =>
      obtain hab := (List.pairwise_cons.mp hWF).1 b (List.mem_cons_self b rest)
      cases rest with
      | nil =>
        rw [show ([a, b].dropLast.getLast? = some a) from rfl] at hx
        rw [show ([a, b].getLast? = some b) from rfl] at hy
        simp only [Option.some.injEq] at hx hy
        subst hx
        subst hy
        rw [calcCore_cons₂ hWF (by omega), if_pos (Or.inr rfl)]
      | cons z rs =>
        rw [List.getLast?_cons_cons] at hy
        have hy3 := hy
        rw [List.getLast?_cons_cons] at hy3
        have hne : (z :: rs) ≠ [] := by simp
        rw [List.getLast?_eq_getLast _ hne] at hy3
        simp only [Option.some.injEq] at hy3
        have ymem : y ∈ z :: rs := hy3 ▸ List.getLast_mem hne
        have hya : y.2 < a.2 ∧ a.1 < y.1 :=
          (List.pairwise_cons.mp hWF).1 y (List.mem_cons_of_mem b ymem)
        have hyb : y.2 < b.2 ∧ b.1 < y.1 :=
          (List.pairwise_cons.mp (List.Pairwise.of_cons hWF)).1 y ymem
        have hx2 : (b :: z :: rs).dropLast.getLast? = some x := by
          rw [List.dropLast_cons₂, List.dropLast_cons₂ (x := b),
            List.getLast?_cons_cons] at hx
          rw [List.dropLast_cons₂]
          exact hx
        rw [calcCore_cons₂ hWF (by omega)]
        rw [if_neg (not_or.mpr ⟨by omega, by simp⟩)]
        exact ih x y d (List.Pairwise.of_cons hWF) hx2 hy hd

/-! ## Claims C1 and C7 -/

/-- Claim C1 counterexample: on the two-row table
`VDOT 30 ↦ 1000 s, VDOT 31 ↦ 900 s`, a query of 800 s is faster than every
row, yet `calculate_vdot_from_time` returns 32, not the boundary row's
VDOT 31 — the fast side is extrapolated, not clamped. -/
theorem c1_counterexample :
    calculate_vdot_from_time [((30 : ℤ), (1000 : ℤ)), (31, 900)] 800 = some 32 ∧
      ((32 : ℚ) ≠ 31) := by
  constructor
  · have hsort : sortByTimeDesc [((30 : ℤ), (1000 : ℤ)), (31, 900)] =
        [(30, 1000), (31, 900)] := by decide
    rw [calculate_vdot_from_time, hsort]
    rw [calcCore_extrapolate [((30 : ℤ), (1000 : ℤ)), (31, 900)] (30, 1000) (31, 900) 800
      (by unfold WFTable; decide) (by decide) (by decide) (by decide)]
    norm_num [interpVal, pyRound2, rheInt]
  · norm_num

/-- Claim C1, amended: for a well-formed table, a query slower than every
row (at or beyond the slowest row's time) is clamped to the slowest row's
VDOT exactly with no interpolation; but a query strictly faster than the
fastest row is *extrapolated* linearly through the two fastest rows and
rounded to two decimals — not clamped. -/
theorem c1_amended :
    (∀ (a : ℤ × ℤ) (l : List (ℤ × ℤ)) (d : ℤ), WFTable (a :: l) → a.2 ≤ d →
      calculate_vdot_from_time (a :: l) d = some ((a.1 : ℚ))) ∧
    (∀ (pairs : List (ℤ × ℤ)) (x y : ℤ × ℤ) (d : ℤ), WFTable pairs →
      pairs.dropLast.getLast? = some x → pairs.getLast? = some y → d < y.2 →
      calculate_vdot_from_time pairs d = some (pyRound2 (interpVal x y d))) := by
  constructor
  · intro a l d hWF hle
    rw [calculate_vdot_from_time, sortByTimeDesc_eq_self hWF, calcCore_cons_clamp _ hle]
  · intro pairs x y d hWF hx hy hd
    rw [calculate_vdot_from_time, sortByTimeDesc_eq_self hWF]
    exact calcCore_extrapolate pairs x y d hWF hx hy hd

/-- Witness for the amended claim C1: the slow side clamps (query 1100 on
the table above returns exactly 30); the fast side extrapolates (query 800
returns the extrapolation formula's value). -/
theorem c1_amended_witness :
    calculate_vdot_from_time [((30 : ℤ), (1000 : ℤ)), (31, 900)] 1100 = some ((30 : ℚ)) ∧
    calculate_vdot_from_time [((30 : ℤ), (1000 : ℤ)), (31, 900)] 800 =
      some (pyRound2 (interpVal (30, 1000) (31, 900) 800)) :=
  ⟨c1_amended.1 (30, 1000) [(31, 900)] 1100 (by unfold WFTable; decide) (by decide),
   c1_amended.2 [(30, 1000), (31, 900)] (30, 1000) (31, 900) 800
     (by unfold WFTable; decide) (by decide) (by decide) (by decide)⟩

/-- Claim C7: for a fixed well-formed reference table,
`calculate_vdot_from_time` is monotone non-increasing in the query
duration: a slower time never yields a higher score. -/
theorem c7_monotone (pairs : List (ℤ × ℤ)) (hWF : WFTable pairs) (d1 d2 : ℤ)
    (hd : d1 ≤ d2) (r1 r2 : ℚ)
    (h1 : calculate_vdot_from_time pairs d1 = some r1)
    (h2 : calculate_vdot_from_time pairs d2 = some r2) : r2 ≤ r1 := by
  rw [calculate_vdot_from_time, sortByTimeDesc_eq_self hWF] at h1 h2
  exact calcCore_mono pairs hWF d1 d2 r1 r2 hd h1 h2

/-- Witness for claim C7: on the table `30 ↦ 1000 s, 31 ↦ 900 s`, the
faster query 900 s scores 31 and the slower query 1000 s scores 30, and
monotonicity gives `30 ≤ 31`. -/
theorem c7_monotone_witness :
    calculate_vdot_from_time [((30 : ℤ), (1000 : ℤ)), (31, 900)] 900 = some 31 ∧
    calculate_vdot_from_time [((30 : ℤ), (1000 : ℤ)), (31, 900)] 1000 = some 30 ∧
    (30 : ℚ) ≤ 31 := by
  have hsort : sortByTimeDesc [((30 : ℤ), (1000 : ℤ)), (31, 900)] =
      [(30, 1000), (31, 900)] := by decide
  have e1 : calculate_vdot_from_time [((30 : ℤ), (1000 : ℤ)), (31, 900)] 900 = some 31 := by
    rw [calculate_vdot_from_time, hsort]
    rw [calcCore_cons₂ (by unfold WFTable; decide) (by decide), if_pos (Or.inl (by decide))]
    norm_num [interpVal, pyRound2, rheInt]
  have e2 : calculate_vdot_from_time [((30 : ℤ), (1000 : ℤ)), (31, 900)] 1000 = some 30 := by
    rw [calculate_vdot_from_time, hsort, calcCore_cons_clamp _ (by decide)]
    norm_num
  exact ⟨e1, e2,
    c7_monotone [(30, 1000), (31, 900)] (by unfold WFTable; decide) 900 1000 (by decide) 31 30 e1 e2⟩

/-! ## Training paces (claim C9) -/

theorem blendPace_same_zero (low : List Char) : blendPace low low 0 = time_to_seconds low := by
  unfold blendPace
  cases hl : time_to_seconds low with
  | none => rfl
  | some pl =>
    dsimp only
    rw [mul_zero, add_zero, rheInt_intCast]

theorem blendPace_zero {high : List Char} (low : List Char)
    (h : time_to_seconds high ≠ none) :
    blendPace low high 0 = time_to_seconds low := by
  unfold blendPace
  cases hl : time_to_seconds low with
  | none =>
    cases hh : time_to_seconds high with
    | none => rfl
    | some ph => rfl
  | some pl =>
    cases hh : time_to_seconds high with
    | none => exact absurd hh h
    | some ph =>
      dsimp only
      rw [mul_zero, add_zero, rheInt_intCast]

/-- Claim C9: `calculate_training_paces` returns an error result (success
flag false, with the descriptive message of line 49) exactly when the
table row at the score's integer floor is missing; when the floor row
exists but the floor+1 row is missing the blend fraction is zero and the
floor row's parsed pace values are returned verbatim; and a score exactly
equal to an existing table row yields that row's pace values unblended. -/
theorem c9_paces_errors :
    (∀ (df : List PaceRow) (v : ℚ), 0 ≤ v →
      ((calculate_training_paces df v).success = false ↔ lookupRow df ⌊v⌋ = none)) ∧
    (∀ (df : List PaceRow) (v : ℚ), 0 ≤ v → lookupRow df ⌊v⌋ = none →
      (calculate_training_paces df v).calculation_log = pacesErrMsg ⌊v⌋ ∧
        pacesErrMsg ⌊v⌋ ≠ []) ∧
    (∀ (df : List PaceRow) (v : ℚ) (rl : PaceRow), 0 ≤ v →
      lookupRow df ⌊v⌋ = some rl → lookupRow df (⌊v⌋ + 1) = none →
      (calculate_training_paces df v).e_min = time_to_seconds rl.e_min ∧
      (calculate_training_paces df v).e_max = time_to_seconds rl.e_max ∧
      (calculate_training_paces df v).m = time_to_seconds rl.m ∧
      (calculate_training_paces df v).t = time_to_seconds rl.t ∧
      (calculate_training_paces df v).i = time_to_seconds rl.i ∧
      (calculate_training_paces df v).r = time_to_seconds rl.r) ∧
    (∀ (df : List PaceRow) (k : ℤ) (rl rh : PaceRow),
      lookupRow df k = some rl → lookupRow df (k + 1) = some rh →
      time_to_seconds rh.e_min ≠ none → time_to_seconds rh.e_max ≠ none →
      time_to_seconds rh.m ≠ none → time_to_seconds rh.t ≠ none →
      time_to_seconds rh.i ≠ none → time_to_seconds rh.r ≠ none →
      (calculate_training_paces df ((k : ℤ) : ℚ)).e_min = time_to_seconds rl.e_min ∧
      (calculate_training_paces df ((k : ℤ) : ℚ)).e_max = time_to_seconds rl.e_max ∧
      (calculate_training_paces df ((k : ℤ) : ℚ)).m = time_to_seconds rl.m ∧
      (calculate_training_paces df ((k : ℤ) : ℚ)).t = time_to_seconds rl.t ∧
      (calculate_training_paces df ((k : ℤ) : ℚ)).i = time_to_seconds rl.i ∧
      (calculate_training_paces df ((k : ℤ) : ℚ)).r = time_to_seconds rl.r) := by
  refine ⟨?_, ?_, ?_, ?_⟩
  · intro df v hv
    rw [← pyIntOf_eq_floor hv]
    unfold calculate_training_paces
    rcases hlk : lookupRow df (pyIntOf v) with _ | rl <;> simp [hlk]
  · intro df v hv hnone
    rw [← pyIntOf_eq_floor hv] at hnone ⊢
    simp only [calculate_training_paces]
    rw [hnone]
    refine ⟨rfl, ?_⟩
    unfold pacesErrMsg
    intro h
    have h1 := (List.append_eq_nil.mp h).1
    have h2 := (List.append_eq_nil.mp h1).1
    exact absurd h2 (by decide)
  · intro df v rl hv hlow hhigh
    rw [← pyIntOf_eq_floor hv] at hlow hhigh
    simp only [calculate_training_paces]
    rw [hlow]
    dsimp only
    rw [hhigh]
    dsimp only
    exact ⟨blendPace_same_zero _, blendPace_same_zero _, blendPace_same_zero _,
      blendPace_same_zero _, blendPace_same_zero _, blendPace_same_zero _⟩
  · intro df k rl rh hlow hhigh hp1 hp2 hp3 hp4 hp5 hp6
    have hk : pyIntOf ((k : ℤ) : ℚ) = k := pyIntOf_intCast k
    simp only [calculate_training_paces]
    rw [hk, hlow]
    dsimp only
    rw [hhigh]
    dsimp only
    rw [sub_self]
    exact ⟨blendPace_zero _ hp1, blendPace_zero _ hp2, blendPace_zero _ hp3,
      blendPace_zero _ hp4, blendPace_zero _ hp5, blendPace_zero _ hp6⟩

/-- Witness for claim C9: an empty table is an error at score 10; a table
with only the VDOT-50 row clamps score 50.5 to that row's
goal-race pace verbatim; a table with rows 50 and 51 at the exact score 50
returns row 50's goal-race pace unblended. -/
theorem c9_paces_errors_witness :
    (calculate_training_paces [] 10).success = false ∧
    (calculate_training_paces
        [⟨50, "5:10".toList, "5:40".toList, "4:31".toList, "4:15".toList,
          "3:55".toList, "3:37".toList⟩] (101/2)).m = time_to_seconds "4:31".toList ∧
    (calculate_training_paces
        [⟨50, "5:10".toList, "5:40".toList, "4:31".toList, "4:15".toList,
          "3:55".toList, "3:37".toList⟩,
         ⟨51, "5:05".toList, "5:35".toList, "4:27".toList, "4:11".toList,
          "3:51".toList, "3:34".toList⟩] ((50 : ℤ) : ℚ)).m =
      time_to_seconds "4:31".toList := by
  have h10 : (⌊(10 : ℚ)⌋ : ℤ) = 10 := by norm_num
  have h505 : (⌊(101/2 : ℚ)⌋ : ℤ) = 50 := by norm_num
  refine ⟨?_, ?_, ?_⟩
  · exact (c9_paces_errors.1 [] 10 (by norm_num)).mpr (by rw [h10]; rfl)
  · exact (c9_paces_errors.2.2.1
      [⟨50, "5:10".toList, "5:40".toList, "4:31".toList, "4:15".toList,
        "3:55".toList, "3:37".toList⟩] (101/2)
      ⟨50, "5:10".toList, "5:40".toList, "4:31".toList, "4:15".toList,
        "3:55".toList, "3:37".toList⟩
      (by norm_num) (by rw [h505]; decide) (by rw [h505]; decide)).2.2.1
  · exact (c9_paces_errors.2.2.2
      [⟨50, "5:10".toList, "5:40".toList, "4:31".toList, "4:15".toList,
        "3:55".toList, "3:37".toList⟩,
       ⟨51, "5:05".toList, "5:35".toList, "4:27".toList, "4:11".toList,
        "3:51".toList, "3:34".toList⟩] 50
      ⟨50, "5:10".toList, "5:40".toList, "4:31".toList, "4:15".toList,
        "3:55".toList, "3:37".toList⟩
      ⟨51, "5:05".toList, "5:35".toList, "4:27".toList, "4:11".toList,
        "3:51".toList, "3:34".toList⟩
      (by decide) (by decide) (by decide) (by decide) (by decide) (by decide)
      (by decide) (by decide)).2.2.1

/-! ## Tolerance policy (claim C8) -/

theorem base_diff_for_pos (v : ℝ) : 0 < base_diff_for v := by
  unfold base_diff_for
  split_ifs <;> norm_num

/-- Claim C8 counterexample: at current score 60 (base tolerance 1.5) and
a 75-week cycle the scale hits the cap 2.5 exactly, so the raw product is
`1.5 × 2.5 = 3.75`; the final rounding to one decimal place (banker's
rounding) yields `3.8`, which *exceeds* the tier's base tolerance times
the multiplier ceiling. -/
theorem c8_counterexample :
    get_max_vdot_diff 60 75 = 19/5 ∧
    base_diff_for 60 * VDOT_DIFF_SCALE_CAP = 15/4 ∧
    (15/4 : ℝ) < 19/5 := by
  have hbase : base_diff_for 60 = 3/2 := by norm_num [base_diff_for]
  have hs : Real.sqrt (75 / 12) = 5/2 := by
    rw [show (75 / 12 : ℝ) = (5/2)^2 by norm_num]
    exact Real.sqrt_sq (by norm_num)
  refine ⟨?_, by rw [hbase]; unfold VDOT_DIFF_SCALE_CAP; norm_num, by norm_num⟩
  unfold get_max_vdot_diff BASE_TRAINING_WEEKS VDOT_DIFF_SCALE_CAP
  rw [hbase, hs, min_self]
  have h1 : (3/2 : ℝ) * (5/2) = 15/4 := by norm_num
  rw [h1]
  unfold pyRound1
  have h2 : (10 : ℝ) * (15/4) = 75/2 := by norm_num
  rw [h2]
  have hfl : (⌊(75/2 : ℝ)⌋ : ℤ) = 37 := by norm_num
  unfold rheInt
  rw [hfl, if_neg (by norm_num), if_neg (by norm_num), if_neg (by norm_num)]
  norm_num

/-- Claim C8, amended: `get_max_vdot_diff` is monotone non-decreasing in
`cycle_weeks` for every fixed current score, and never exceeds the tier's
base tolerance times the multiplier ceiling *rounded to one decimal*
(hence exceeds the raw product by at most 0.05, as the counterexample
realises); at a low-tier current score a 24-week cycle yields at least the
12-week baseline tolerance for that tier. -/
theorem c8_amended :
    (∀ (v w1 w2 : ℝ), w1 ≤ w2 → get_max_vdot_diff v w1 ≤ get_max_vdot_diff v w2) ∧
    (∀ v w : ℝ, get_max_vdot_diff v w ≤ pyRound1 (base_diff_for v * VDOT_DIFF_SCALE_CAP) ∧
      get_max_vdot_diff v w ≤ base_diff_for v * VDOT_DIFF_SCALE_CAP + 1/20) ∧
    (∀ v : ℝ, 0 ≤ v → v < 40 → base_diff_for v ≤ get_max_vdot_diff v 24) := by
  have hmono : ∀ (v w1 w2 : ℝ), w1 ≤ w2 →
      get_max_vdot_diff v w1 ≤ get_max_vdot_diff v w2 := by
    intro v w1 w2 hw
    unfold get_max_vdot_diff
    apply pyRound1_mono
    apply mul_le_mul_of_nonneg_left _ (base_diff_for_pos v).le
    apply min_le_min _ le_rfl
    apply Real.sqrt_le_sqrt
    unfold BASE_TRAINING_WEEKS
    linarith
  refine ⟨hmono, ?_, ?_⟩
  · intro v w
    have hcaple : base_diff_for v *
        min (Real.sqrt (w / BASE_TRAINING_WEEKS)) VDOT_DIFF_SCALE_CAP ≤
        base_diff_for v * VDOT_DIFF_SCALE_CAP :=
      mul_le_mul_of_nonneg_left (min_le_right _ _) (base_diff_for_pos v).le
    constructor
    · exact pyRound1_mono hcaple
    · calc get_max_vdot_diff v w
          ≤ base_diff_for v * min (Real.sqrt (w / BASE_TRAINING_WEEKS)) VDOT_DIFF_SCALE_CAP
            + 1/20 := pyRound1_le _
        _ ≤ base_diff_for v * VDOT_DIFF_SCALE_CAP + 1/20 := by linarith
  · intro v h0 h40
    have hbase : base_diff_for v = 4 := by
      unfold base_diff_for
      rw [if_pos ⟨h0, h40⟩]
    have h12 : get_max_vdot_diff v 12 = 4 := by
      unfold get_max_vdot_diff BASE_TRAINING_WEEKS VDOT_DIFF_SCALE_CAP
      rw [hbase]
      have hsf : Real.sqrt ((12 : ℝ) / 12) = 1 := by
        rw [show ((12 : ℝ) / 12) = 1 by norm_num, Real.sqrt_one]
      rw [hsf, min_eq_left (by norm_num), mul_one]
      unfold pyRound1
      have h2 : (10 : ℝ) * 4 = ((40 : ℤ) : ℝ) := by norm_num
      rw [h2, rheInt_intCast]
      norm_num
    have := hmono v 12 24 (by norm_num)
    rw [hbase, ← h12]
    exact this

/-- Witness for the amended claim C8: monotonicity from 12 to 24 weeks at
score 30, the rounded cap bound at score 60 with 75 weeks, and the
scenario bound at low-tier score 30. -/
theorem c8_amended_witness :
    get_max_vdot_diff 30 12 ≤ get_max_vdot_diff 30 24 ∧
    get_max_vdot_diff 60 75 ≤ pyRound1 (base_diff_for 60 * VDOT_DIFF_SCALE_CAP) ∧
    base_diff_for 30 ≤ get_max_vdot_diff 30 24 :=
  ⟨c8_amended.1 30 12 24 (by norm_num),
   (c8_amended.2.1 60 75).1,
   c8_amended.2.2 30 (by norm_num) (by norm_num)⟩
